import Mathlib

/-!
# Verification of the mefikit interchange layer (`mefikit/io.py`)

Shallow embedding of the connectivity re-encoding code of `mefikit/io.py`:
the type catalogues, the medcoupling conversion `to_mc` (type-coded stream
with cumulative offsets), the pyvista conversion `to_pyvista` (size-prefixed
stream with a parallel type-id array plus coordinate padding), and the meshio
conversion `to_meshio` (per-type tables re-keyed to meshio names).

Element-type tags are strings, as in the source.  A mesh's `blocks()` mapping
is modelled as an association list `Blocks` with unique keys (a Python dict
seen together with its iteration order); dict membership and subscription are
modelled by `lookupB`.  Tables (`numpy` 2-d integer arrays) are lists of rows;
`numpy`'s `shape[1]` is `ncols`, well defined on the rectangular arrays numpy
can represent (`Rect`).  Python `KeyError` (an unknown tag subscripted into a
catalogue dict) and the `ValueError` of `max()` on an empty generator become
the `MfError` cases of an `Except`.
-/

namespace Mefikit

/-- A connectivity table: one row of node indices per element
(`numpy` array of shape `n_elem × num_nodes`). -/
abbrev Table := List (List Nat)

/-- The `blocks()` mapping: element-type tag to table, with its dict
iteration order. -/
abbrev Blocks := List (String × Table)

/-- `shape[1]` of a rectangular array modelled as a list of rows. -/
def ncols (tbl : List (List Nat)) : Nat :=
  (tbl.head?.map List.length).getD 0

/-- Rectangularity: every row has the common column count.  Every `numpy`
2-d array satisfies this by construction. -/
def Rect (tbl : List (List Nat)) : Prop :=
  ∀ row ∈ tbl, row.length = ncols tbl

instance (tbl : List (List Nat)) : Decidable (Rect tbl) := by
  unfold Rect; infer_instance

/-- Dict lookup (`blocks[et]`, and `et in blocks` via `isSome`). -/
def lookupB (et : String) : Blocks → Option Table
  | [] => none
  | p :: rest => if p.1 = et then some p.2 else lookupB et rest

/-- Errors surfaced by the conversions: a Python `KeyError` on a catalogue
dict, or the `ValueError` of `max()` over an empty generator. -/
inductive MfError where
  | keyError (tag : String)
  | emptyMesh
  deriving DecidableEq, Repr

/-- `type_order` from `io.py`: the canonical output order of element types. -/
def type_order : List String :=
  ["VERTEX", "SEG2", "SEG3", "TRI3", "TRI6", "QUAD4", "QUAD8",
   "TET4", "TET10", "HEX8", "HEX20"]

/-- `mf_types_dim` from `io.py`: topological dimension of each tag. -/
def mf_types_dim : String → Option Nat
  | "VERTEX" => some 0
  | "SEG2" => some 1
  | "SEG3" => some 1
  | "TRI3" => some 2
  | "TRI6" => some 2
  | "QUAD4" => some 2
  | "QUAD8" => some 2
  | "TET4" => some 3
  | "TET10" => some 3
  | "HEX8" => some 3
  | "HEX20" => some 3
  | _ => none

/-- `mf_types_num_node` from `io.py`: canonical node count of each tag. -/
def mf_types_num_node : String → Option Nat
  | "VERTEX" => some 1
  | "SEG2" => some 2
  | "SEG3" => some 3
  | "TRI3" => some 3
  | "TRI6" => some 6
  | "QUAD4" => some 4
  | "QUAD8" => some 8
  | "TET4" => some 4
  | "TET10" => some 10
  | "HEX8" => some 8
  | "HEX20" => some 20
  | _ => none

/-- `mf_types_mc_id` from `to_mc`: the medcoupling numeric code of each tag. -/
def mf_types_mc_id : String → Option Nat
  | "VERTEX" => some 0
  | "SEG2" => some 1
  | "SEG3" => some 2
  | "TRI3" => some 3
  | "TRI6" => some 6
  | "QUAD4" => some 4
  | "QUAD8" => some 8
  | "TET4" => some 14
  | "TET10" => some 20
  | "HEX8" => some 18
  | "HEX20" => some 30
  | _ => none

/-- `mf_types_to_pv` from `to_pyvista`: the numeric VTK cell-type code each
tag maps to (`pv.CellType` values: VERTEX=1, WEDGE=13, QUADRATIC_EDGE=21,
TRIANGLE=5, QUADRATIC_TRIANGLE=22, QUAD=9, QUADRATIC_QUAD=23, TETRA=10,
QUADRATIC_TETRA=24, HEXAHEDRON=12, QUADRATIC_HEXAHEDRON=25). -/
def mf_types_to_pv : String → Option Nat
  | "VERTEX" => some 1
  | "SEG2" => some 13
  | "SEG3" => some 21
  | "TRI3" => some 5
  | "TRI6" => some 22
  | "QUAD4" => some 9
  | "QUAD8" => some 23
  | "TET4" => some 10
  | "TET10" => some 24
  | "HEX8" => some 12
  | "HEX20" => some 25
  | _ => none

/-- `mefikit_to_meshio_type` from `io.py` (the inverse of
`meshio_to_mefikit_type`). -/
def mefikit_to_meshio_type : String → Option String
  | "VERTEX" => some "vertex"
  | "SEG2" => some "line"
  | "SEG3" => some "line3"
  | "TRI3" => some "triangle"
  | "TRI6" => some "triangle6"
  | "QUAD4" => some "quad"
  | "QUAD8" => some "quad8"
  | "TET4" => some "tetra"
  | "TET10" => some "tetra10"
  | "HEX8" => some "hexahedron"
  | "HEX20" => some "hexahedron20"
  | _ => none

/-- `np.insert(conn.flatten(), np.arange(n_elem) * num_nodes, p)` on a
rectangular `n_elem × num_nodes` array: every element record is emitted as
the value `p` followed by the element's nodes. -/
def size_prefixed (p : Nat) (tbl : Table) : List Nat :=
  tbl.flatMap (fun row => p :: row)

/-- `to_meshio`, cells dictionary: `{mefikit_to_meshio_type[t]: b for (t, b)
in blocks.items()}`; subscripting the name dict with an unknown tag raises
`KeyError` at the first such tag in iteration order. -/
def to_meshio_cells : Blocks → Except MfError (List (String × Table))
  | [] => .ok []
  | p :: rest =>
    match mefikit_to_meshio_type p.1 with
    | none => .error (.keyError p.1)
    | some t => (to_meshio_cells rest).map (fun cs => (t, p.2) :: cs)

/-- The dimensions of the tags present, in dict order:
`(mf_types_dim[et] for et in blocks)`, where an unknown tag raises
`KeyError` at the first such tag in iteration order. -/
def dimsOf : Blocks → Except MfError (List Nat)
  | [] => .ok []
  | p :: rest =>
    match mf_types_dim p.1 with
    | none => .error (.keyError p.1)
    | some d => (dimsOf rest).map (fun ds => d :: ds)

/-- Level selection in `to_mc`: `if lev is None: lev = max(mf_types_dim[et]
for et in blocks)`; `max()` of an empty generator raises `ValueError`. -/
def selectLev (blocks : Blocks) : Option Nat → Except MfError Nat
  | some l => .ok l
  | none => do
      let ds ← dimsOf blocks
      match ds.max? with
      | some m => .ok m
      | none => .error .emptyMesh

/-- `_mf_reg_to_mc_connectivity`, offsets part:
`np.arange(n_elem, dtype=int) * (num_nodes + 1)` with
`num_nodes = conn.shape[1]`. -/
def mc_block_offsets (tbl : Table) : List Nat :=
  (List.range tbl.length).map (fun i => i * (ncols tbl + 1))

/-- One iteration of the `for et in type_order` loop of `to_mc`: skip when
`et not in blocks or mf_types_dim[et] != lev`; otherwise append the
type-coded stream of the block and merge its offsets (shift by the last
accumulated offset and drop the first entry when the accumulator is
non-empty). -/
def mc_step (blocks : Blocks) (lev : Nat) (acc : List Nat × List Nat)
    (et : String) : List Nat × List Nat :=
  if lookupB et blocks = none ∨ mf_types_dim et ≠ some lev then acc
  else
    match lookupB et blocks with
    | none => acc
    | some tbl =>
      let conn := size_prefixed ((mf_types_mc_id et).getD 0) tbl
      let offs := mc_block_offsets tbl
      let offs' := match acc.2.getLast? with
        | none => offs
        | some last => (offs.map (· + last)).tail
      (acc.1 ++ conn, acc.2 ++ offs')

/-- The whole `for et in type_order` loop of `to_mc`, starting from the
empty `mc_conn` / `mc_offset` arrays. -/
def mc_fold (blocks : Blocks) (lev : Nat) : List Nat × List Nat :=
  type_order.foldl (mc_step blocks lev) ([], [])

/-- `to_mc`, connectivity and offsets part: select the level (defaulting to
the maximum dimension present), then run the flattening loop. -/
def to_mc_arrays (blocks : Blocks) (lev : Option Nat) :
    Except MfError (List Nat × List Nat) := do
  let l ← selectLev blocks lev
  return mc_fold blocks l

/-- One iteration of the `for et in type_order` loop of `to_pyvista`: skip
when `et not in blocks`; otherwise append the size-prefixed stream
(`num_nodes = conn.shape[1]`) and one VTK type code per element. -/
def pv_step (blocks : Blocks) (acc : List Nat × List Nat) (et : String) :
    List Nat × List Nat :=
  match lookupB et blocks with
  | none => acc
  | some tbl =>
    (acc.1 ++ size_prefixed (ncols tbl) tbl,
     acc.2 ++ List.replicate tbl.length ((mf_types_to_pv et).getD 0))

/-- `to_pyvista`, connectivity and cell-type arrays (`pv_conn`,
`pv_et_types`). -/
def pv_fold (blocks : Blocks) : List Nat × List Nat :=
  type_order.foldl (pv_step blocks) ([], [])

/-- `to_pyvista`, coordinate handling: widths 1 and 2 are padded with zero
columns to width 3, anything else is passed through unchanged.  `ncolsQ` is
`shape[1]` of the coordinate matrix. -/
def ncolsQ (coords : List (List ℚ)) : Nat :=
  (coords.head?.map List.length).getD 0

/-- The `if coords.shape[1] == 1 / elif == 2 / else` padding of
`to_pyvista`. -/
def pad_coords (coords : List (List ℚ)) : List (List ℚ) :=
  if ncolsQ coords = 1 then coords.map (fun row => row ++ [0, 0])
  else if ncolsQ coords = 2 then coords.map (fun row => row ++ [0])
  else coords

/-- The blocks present, in canonical order with their tables: what the
`for et in type_order` loops iterate over. -/
def canonicalBlocks (blocks : Blocks) : Blocks :=
  type_order.filterMap (fun et => (lookupB et blocks).map (fun tbl => (et, tbl)))

/-- The dimensions of the tags present, in dict order, when all are known
(the list `dimsOf` succeeds with). -/
def presentDims (blocks : Blocks) : List Nat :=
  blocks.filterMap (fun p => mf_types_dim p.1)

/-- Total number of elements across the blocks selected for level `lev`
(the spec's "total element count across selected blocks"). -/
def totalElems (blocks : Blocks) (lev : Nat) : Nat :=
  (((canonicalBlocks blocks).filter
      (fun p => decide (mf_types_dim p.1 = some lev))).map
    (fun p => p.2.length)).sum

/-- Re-chunk a size-prefixed stream into element rows: read a size, take
that many entries as one row, continue on the rest. -/
def decodeStream (xs : List Nat) : List (List Nat) :=
  match xs with
  | [] => []
  | s :: rest => rest.take s :: decodeStream (rest.drop s)
termination_by xs.length
decreasing_by simp [List.length_drop]; omega

/-- Group consecutive elements carrying the same type id back into
per-type tables. -/
def groupConsec : List Nat → List (List Nat) → List (Nat × List (List Nat))
  | t :: ts, r :: rs =>
    match groupConsec ts rs with
    | [] => [(t, [r])]
    | (t2, g) :: rest =>
      if t = t2 then (t, r :: g) :: rest
      else (t, [r]) :: (t2, g) :: rest
  | _, _ => []

/-! ## Supporting lemmas -/

theorem lookupB_mem {et : String} {b : Blocks} {tbl : Table}
    (h : lookupB et b = some tbl) : (et, tbl) ∈ b := by
  induction b with
  | nil => simp [lookupB] at h
  | cons p rest ih =>
    by_cases hp : p.1 = et
    · simp [lookupB, hp] at h
      have : p = (et, tbl) := by
        cases p
        simp_all
      rw [this]
      exact List.mem_cons_self _ _
    · simp [lookupB, hp] at h
      exact List.mem_cons_of_mem _ (ih h)

theorem lookupB_filter (q : String → Bool) (b : Blocks) (et : String) :
    lookupB et (b.filter (fun p => q p.1))
      = if q et then lookupB et b else none := by
  induction b with
  | nil => simp [lookupB]
  | cons p rest ih =>
    by_cases hq : q p.1
    · by_cases hp : p.1 = et
      · subst hp
        simp [lookupB, hq]
      · simp [List.filter_cons, hq, lookupB, hp, ih]
    · by_cases hp : p.1 = et
      · subst hp
        simp [List.filter_cons, hq, lookupB, ih]
      · simp [List.filter_cons, hq, lookupB, hp, ih]

theorem mc_step_congr {b1 b2 : Blocks} (lev : Nat) (et : String)
    (h : lookupB et b1 = lookupB et b2) (acc : List Nat × List Nat) :
    mc_step b1 lev acc et = mc_step b2 lev acc et := by
  simp [mc_step, h]

theorem pv_step_congr {b1 b2 : Blocks} (et : String)
    (h : lookupB et b1 = lookupB et b2) (acc : List Nat × List Nat) :
    pv_step b1 acc et = pv_step b2 acc et := by
  simp [pv_step, h]

theorem mc_step_skip {b : Blocks} {lev : Nat} {et : String}
    (h : ∀ p ∈ b, mf_types_dim p.1 ≠ some lev) (acc : List Nat × List Nat) :
    mc_step b lev acc et = acc := by
  unfold mc_step
  cases hl : lookupB et b with
  | none => simp [hl]
  | some tbl =>
    have := h (et, tbl) (lookupB_mem hl)
    simp [hl, this]

theorem foldl_skip_all {b : Blocks} {lev : Nat}
    (h : ∀ p ∈ b, mf_types_dim p.1 ≠ some lev) :
    ∀ (l : List String) (acc : List Nat × List Nat),
      l.foldl (mc_step b lev) acc = acc := by
  intro l
  induction l with
  | nil => intro acc; rfl
  | cons et rest ih =>
    intro acc
    rw [List.foldl_cons, mc_step_skip h, ih]

/-- The blocks of `b` present among the tags of `l`, in the order of `l`. -/
def selBlocks (b : Blocks) (l : List String) : Blocks :=
  l.filterMap (fun et => (lookupB et b).map (fun tbl => (et, tbl)))

theorem canonicalBlocks_eq_selBlocks (b : Blocks) :
    canonicalBlocks b = selBlocks b type_order := rfl

theorem pv_foldl_structure (b : Blocks) :
    ∀ (l : List String) (acc : List Nat × List Nat),
      l.foldl (pv_step b) acc
        = (acc.1 ++ (selBlocks b l).flatMap (fun p => size_prefixed (ncols p.2) p.2),
           acc.2 ++ (selBlocks b l).flatMap
              (fun p => List.replicate p.2.length ((mf_types_to_pv p.1).getD 0))) := by
  intro l
  induction l with
  | nil => intro acc; simp [selBlocks]
  | cons et rest ih =>
    intro acc
    rw [List.foldl_cons]
    cases hl : lookupB et b with
    | none =>
      rw [ih]
      simp [selBlocks, pv_step, hl]
    | some tbl =>
      rw [ih]
      simp [selBlocks, pv_step, hl]

theorem pv_fold_structure (b : Blocks) :
    pv_fold b
      = ((canonicalBlocks b).flatMap (fun p => size_prefixed (ncols p.2) p.2),
         (canonicalBlocks b).flatMap
           (fun p => List.replicate p.2.length ((mf_types_to_pv p.1).getD 0))) := by
  rw [canonicalBlocks_eq_selBlocks]
  simpa using pv_foldl_structure b type_order ([], [])

theorem mc_foldl_conn_structure (b : Blocks) (lev : Nat) :
    ∀ (l : List String) (acc : List Nat × List Nat),
      (l.foldl (mc_step b lev) acc).1
        = acc.1 ++ ((selBlocks b l).filter
              (fun p => decide (mf_types_dim p.1 = some lev))).flatMap
            (fun p => size_prefixed ((mf_types_mc_id p.1).getD 0) p.2) := by
  intro l
  induction l with
  | nil => intro acc; simp [selBlocks]
  | cons et rest ih =>
    intro acc
    rw [List.foldl_cons]
    cases hl : lookupB et b with
    | none =>
      rw [ih]
      simp [selBlocks, mc_step, hl]
    | some tbl =>
      by_cases hd : mf_types_dim et = some lev
      · rw [ih]
        simp [selBlocks, mc_step, hl, hd, List.filter_cons]
      · rw [ih]
        simp [selBlocks, mc_step, hl, hd, List.filter_cons]

theorem dim_none_of_not_mem {t : String} (h : t ∉ type_order) :
    mf_types_dim t = none := by
  unfold mf_types_dim
  split <;> simp_all [type_order]

theorem meshio_none_of_not_mem {t : String} (h : t ∉ type_order) :
    mefikit_to_meshio_type t = none := by
  unfold mefikit_to_meshio_type
  split <;> simp_all [type_order]

theorem known_dims : ∀ t ∈ type_order, (mf_types_dim t).isSome := by decide

theorem not_mem_of_dim_none {t : String} (h : mf_types_dim t = none) :
    t ∉ type_order := by
  intro hmem
  have := known_dims t hmem
  rw [h] at this
  simp at this

theorem dimsOf_known {b : Blocks} (h : ∀ p ∈ b, (mf_types_dim p.1).isSome) :
    dimsOf b = .ok (presentDims b) := by
  induction b with
  | nil => rfl
  | cons p rest ih =>
    have hp := h p (List.mem_cons_self _ _)
    cases hd : mf_types_dim p.1 with
    | none => rw [hd] at hp; simp at hp
    | some d =>
      have ih' := ih (fun q hq => h q (List.mem_cons_of_mem _ hq))
      simp [dimsOf, hd, ih', presentDims, List.filterMap_cons, Except.map]

theorem dimsOf_unknown {b : Blocks} {p : String × Table} (hmem : p ∈ b)
    (hu : mf_types_dim p.1 = none) :
    ∃ k, dimsOf b = .error (.keyError k) ∧ mf_types_dim k = none := by
  induction b with
  | nil => simp at hmem
  | cons q rest ih =>
    cases hd : mf_types_dim q.1 with
    | none => exact ⟨q.1, by simp [dimsOf, hd], hd⟩
    | some d =>
      rcases List.mem_cons.mp hmem with hq | hq
      · rw [hq, hd] at hu
        simp at hu
      · obtain ⟨k, hk, hkn⟩ := ih hq
        exact ⟨k, by simp [dimsOf, hd, hk, Except.map], hkn⟩

theorem meshio_unknown {b : Blocks} {p : String × Table} (hmem : p ∈ b)
    (hu : mefikit_to_meshio_type p.1 = none) :
    ∃ k, to_meshio_cells b = .error (.keyError k)
      ∧ mefikit_to_meshio_type k = none := by
  induction b with
  | nil => simp at hmem
  | cons q rest ih =>
    cases hd : mefikit_to_meshio_type q.1 with
    | none => exact ⟨q.1, by simp [to_meshio_cells, hd], hd⟩
    | some t =>
      rcases List.mem_cons.mp hmem with hq | hq
      · rw [hq, hd] at hu
        simp at hu
      · obtain ⟨k, hk, hkn⟩ := ih hq
        exact ⟨k, by simp [to_meshio_cells, hd, hk, Except.map], hkn⟩

theorem known_meshio : ∀ t ∈ type_order, (mefikit_to_meshio_type t).isSome := by
  decide

theorem not_mem_of_meshio_none {t : String}
    (h : mefikit_to_meshio_type t = none) : t ∉ type_order := by
  intro hmem
  have := known_meshio t hmem
  rw [h] at this
  simp at this

theorem lookupB_isSome_iff {k : String} {b : Blocks} :
    (lookupB k b).isSome ↔ ∃ tbl, (k, tbl) ∈ b := by
  constructor
  · intro hs
    obtain ⟨tbl, htbl⟩ := Option.isSome_iff_exists.mp hs
    exact ⟨tbl, lookupB_mem htbl⟩
  · rintro ⟨tbl, htbl⟩
    induction b with
    | nil => simp at htbl
    | cons p rest ih =>
      by_cases hp : p.1 = k
      · simp [lookupB, hp]
      · rcases List.mem_cons.mp htbl with hq | hq
        · rw [← hq] at hp
          simp at hp
        · simp [lookupB, hp, ih hq]

theorem mem_presentDims {d : Nat} {b : Blocks} :
    d ∈ presentDims b
      ↔ ∃ k, (lookupB k b).isSome ∧ mf_types_dim k = some d := by
  unfold presentDims
  rw [List.mem_filterMap]
  constructor
  · rintro ⟨p, hp, hf⟩
    exact ⟨p.1, lookupB_isSome_iff.mpr ⟨p.2, hp⟩, hf⟩
  · rintro ⟨k, hs, hd⟩
    obtain ⟨tbl, htbl⟩ := Option.isSome_iff_exists.mp hs
    exact ⟨(k, tbl), lookupB_mem htbl, hd⟩

theorem max?_eq_of_mem_iff {ds1 ds2 : List Nat}
    (h : ∀ d, d ∈ ds1 ↔ d ∈ ds2) : ds1.max? = ds2.max? := by
  cases h1 : ds1.max? with
  | none =>
    cases h2 : ds2.max? with
    | none => rfl
    | some m =>
      have hm := List.max?_mem (fun a b => max_choice a b) h2
      have hmem : m ∈ ds1 := (h m).mpr hm
      rw [List.max?_eq_none_iff.mp h1] at hmem
      simp at hmem
  | some m1 =>
    cases h2 : ds2.max? with
    | none =>
      have hm := List.max?_mem (fun a b => max_choice a b) h1
      have hmem : m1 ∈ ds2 := (h m1).mp hm
      rw [List.max?_eq_none_iff.mp h2] at hmem
      simp at hmem
    | some m2 =>
      have hm1 := List.max?_mem (fun a b => max_choice a b) h1
      have hm2 := List.max?_mem (fun a b => max_choice a b) h2
      have hle1 : m1 ≤ m2 :=
        ((List.max?_le_iff (fun _ _ _ => max_le_iff) h2).mp le_rfl) m1
          ((h m1).mp hm1)
      have hle2 : m2 ≤ m1 :=
        ((List.max?_le_iff (fun _ _ _ => max_le_iff) h1).mp le_rfl) m2
          ((h m2).mpr hm2)
      rw [Nat.le_antisymm hle1 hle2]

theorem mc_fold_congr {b1 b2 : Blocks}
    (h : ∀ et, lookupB et b1 = lookupB et b2) (lev : Nat) :
    mc_fold b1 lev = mc_fold b2 lev := by
  unfold mc_fold
  exact List.foldl_ext _ _ _ (fun acc et _ => mc_step_congr lev et (h et) acc)

theorem pv_fold_congr {b1 b2 : Blocks}
    (h : ∀ et, lookupB et b1 = lookupB et b2) :
    pv_fold b1 = pv_fold b2 := by
  unfold pv_fold
  exact List.foldl_ext _ _ _ (fun acc et _ => pv_step_congr et (h et) acc)

theorem to_meshio_cells_known {b : Blocks}
    (h : ∀ p ∈ b, (mefikit_to_meshio_type p.1).isSome) :
    to_meshio_cells b
      = .ok (b.map (fun p => ((mefikit_to_meshio_type p.1).getD "", p.2))) := by
  induction b with
  | nil => rfl
  | cons p rest ih =>
    have hp := h p (List.mem_cons_self _ _)
    cases hd : mefikit_to_meshio_type p.1 with
    | none => rw [hd] at hp; simp at hp
    | some t =>
      have ih' := ih (fun q hq => h q (List.mem_cons_of_mem _ hq))
      simp [to_meshio_cells, hd, ih', Except.map]

theorem mc_step_dim_filter (b : Blocks) (lev : Nat) (et : String)
    (acc : List Nat × List Nat) :
    mc_step b lev acc et
      = mc_step (b.filter (fun p => decide (mf_types_dim p.1 = some lev)))
          lev acc et := by
  by_cases hd : mf_types_dim et = some lev
  · refine mc_step_congr lev et ?_ acc
    rw [lookupB_filter (fun s => decide (mf_types_dim s = some lev)) b et]
    simp [hd]
  · simp [mc_step, hd]

/-! ## Claim theorems -/

/-- C1: for the mesh with one TRI3 block `[[0,1,2],[1,2,3]]` and one QUAD4
block `[[0,1,2,3]]`, the size-prefixed stream is
`[3,0,1,2,3,1,2,3,4,0,1,2,3]` (TRI3 first) and the pyvista type-id array is
`[code TRI3, code TRI3, code QUAD4] = [5,5,9]`, as the claim states; but the
offsets array produced by `to_mc` is `[0,4]`, not the claimed `[0,4,8]`: at
the block boundary the code shifts the new block's offsets by the *start*
offset of the previous block's last element instead of the end of its record
and then drops the new block's first offset. -/
theorem concrete_scenario_evaluation :
    to_mc_arrays [("TRI3", [[0,1,2],[1,2,3]]), ("QUAD4", [[0,1,2,3]])] none
      = .ok ([3,0,1,2,3,1,2,3,4,0,1,2,3], [0,4])
    ∧ pv_fold [("TRI3", [[0,1,2],[1,2,3]]), ("QUAD4", [[0,1,2,3]])]
      = ([3,0,1,2,3,1,2,3,4,0,1,2,3], [5,5,9])
    ∧ mf_types_to_pv "TRI3" = some 5 ∧ mf_types_to_pv "QUAD4" = some 9 :=
  ⟨rfl, rfl, rfl, rfl⟩

/-- C2: the offsets array of `to_mc` is not one entry per element: for the
two-block mesh with 3 elements it has 2 entries (`[0,4]`), because the merge
at each block boundary drops the first offset of every block after the
first.  (`totalElems` counts the elements of the selected blocks; the
default level here is 2 and both blocks are selected.) -/
theorem offsets_length_bug :
    (to_mc_arrays [("TRI3", [[0,1,2],[1,2,3]]), ("QUAD4", [[0,1,2,3]])] none).map
        (fun p => p.2) = .ok [0, 4]
    ∧ totalElems [("TRI3", [[0,1,2],[1,2,3]]), ("QUAD4", [[0,1,2,3]])] 2 = 3 :=
  ⟨rfl, rfl⟩

/-- C5 counterexample: a TRI3 block whose table has 4 columns is flattened
without any error: `to_pyvista` emits size prefix 4 (the table's own column
count, not the catalogue's node count 3) and `to_mc` emits the TRI3 type
code with a 4-node record; no `MalformedBlock` failure exists in the code. -/
theorem tri3_four_columns_no_error :
    pv_fold [("TRI3", [[0,1,2,3]])] = ([4,0,1,2,3], [5])
    ∧ mf_types_num_node "TRI3" = some 3
    ∧ to_mc_arrays [("TRI3", [[0,1,2,3]])] none = .ok ([3,0,1,2,3], [0]) :=
  ⟨rfl, rfl, rfl⟩

/-- C5 amended: the flattenings take the per-element node count from the
table's own shape (`conn.shape[1]`) and never compare it with
`mf_types_num_node`; any TRI3 table, whatever its column count, is encoded
as-is and no failure path exists. -/
theorem node_count_from_table_shape (tbl : Table) :
    pv_fold [("TRI3", tbl)]
      = (tbl.flatMap (fun row => ncols tbl :: row), List.replicate tbl.length 5)
    ∧ to_mc_arrays [("TRI3", tbl)] none
      = .ok (tbl.flatMap (fun row => 3 :: row), mc_block_offsets tbl) :=
  ⟨rfl, rfl⟩

/-- C10: when an explicit level is requested and no block of that dimension
exists (in particular when the blocks mapping is empty), `to_mc` returns
empty connectivity and offsets arrays without any error. -/
theorem explicit_level_no_blocks_empty_output (b : Blocks) (lev : Nat)
    (h : ∀ p ∈ b, mf_types_dim p.1 ≠ some lev) :
    to_mc_arrays b (some lev) = .ok ([], []) := by
  have hf := foldl_skip_all h type_order ([], [])
  simp [to_mc_arrays, selectLev, mc_fold, hf]

/-- Witness for C10: a mesh holding only a HEX8 block, converted at the
explicitly requested level 2, and the empty mesh at level 0. -/
theorem explicit_level_no_blocks_empty_output_witness :
    to_mc_arrays [("HEX8", [[0,1,2,3,4,5,6,7]])] (some 2) = .ok ([], [])
    ∧ to_mc_arrays [] (some 0) = .ok ([], []) :=
  ⟨explicit_level_no_blocks_empty_output _ 2 (by decide),
   explicit_level_no_blocks_empty_output _ 0 (by decide)⟩

/-- C3 counterexample: two blocks mappings with the same key-to-table
content but opposite insertion orders (they are permutations of one another,
and their lookups at both present keys agree) are converted by `to_meshio`
into cells sequences in *different* orders — the second not in
CanonicalOrder — because `to_meshio` iterates `blocks.items()` rather than
`type_order`; so not every conversion's output is order-normalized or
determined by content alone. -/
theorem to_meshio_order_dependent :
    List.Perm [("QUAD4", [[0,1,2,3]]), ("TRI3", [[0,1,2]])]
      [("TRI3", [[0,1,2]]), ("QUAD4", [[0,1,2,3]])]
    ∧ lookupB "TRI3" [("QUAD4", [[0,1,2,3]]), ("TRI3", [[0,1,2]])]
      = lookupB "TRI3" [("TRI3", [[0,1,2]]), ("QUAD4", [[0,1,2,3]])]
    ∧ lookupB "QUAD4" [("QUAD4", [[0,1,2,3]]), ("TRI3", [[0,1,2]])]
      = lookupB "QUAD4" [("TRI3", [[0,1,2]]), ("QUAD4", [[0,1,2,3]])]
    ∧ to_meshio_cells [("QUAD4", [[0,1,2,3]]), ("TRI3", [[0,1,2]])]
      = .ok [("quad", [[0,1,2,3]]), ("triangle", [[0,1,2]])]
    ∧ to_meshio_cells [("TRI3", [[0,1,2]]), ("QUAD4", [[0,1,2,3]])]
      = .ok [("triangle", [[0,1,2]]), ("quad", [[0,1,2,3]])]
    ∧ ([("quad", [[0,1,2,3]]), ("triangle", [[0,1,2]])] : List (String × Table))
      ≠ [("triangle", [[0,1,2]]), ("quad", [[0,1,2,3]])] := by
  refine ⟨?_, rfl, rfl, rfl, rfl, by decide⟩
  decide

/-- C3 amended: the *flattened* conversions — `to_pyvista`, and `to_mc` with
an explicit level or (when every present tag is in the catalogue) with the
defaulted level — depend only on the key-to-table content of the blocks
mapping, and their outputs are the concatenation, in CanonicalOrder
(`type_order`), of the per-block encodings, each block contributing its rows
in input order; `to_meshio`, by contrast, emits its per-type tables in
mapping-iteration order (the input order, re-keyed to meshio names), not in
CanonicalOrder. -/
theorem flattened_outputs_content_determined (b1 b2 : Blocks)
    (h : ∀ et, lookupB et b1 = lookupB et b2) :
    pv_fold b1 = pv_fold b2
    ∧ (∀ lev, to_mc_arrays b1 (some lev) = to_mc_arrays b2 (some lev))
    ∧ ((∀ p ∈ b1, (mf_types_dim p.1).isSome) →
        to_mc_arrays b1 none = to_mc_arrays b2 none)
    ∧ pv_fold b1
        = ((canonicalBlocks b1).flatMap (fun p => size_prefixed (ncols p.2) p.2),
           (canonicalBlocks b1).flatMap
             (fun p => List.replicate p.2.length ((mf_types_to_pv p.1).getD 0)))
    ∧ (∀ lev, (mc_fold b1 lev).1
        = ((canonicalBlocks b1).filter
              (fun p => decide (mf_types_dim p.1 = some lev))).flatMap
            (fun p => size_prefixed ((mf_types_mc_id p.1).getD 0) p.2))
    ∧ (∀ b : Blocks, (∀ p ∈ b, (mefikit_to_meshio_type p.1).isSome) →
        to_meshio_cells b
          = .ok (b.map (fun p => ((mefikit_to_meshio_type p.1).getD "", p.2)))) := by
  refine ⟨pv_fold_congr h, fun lev => ?_, fun hk1 => ?_,
    pv_fold_structure b1, fun lev => ?_, fun b hb => to_meshio_cells_known hb⟩
  · simp [to_mc_arrays, selectLev, mc_fold_congr h lev]
  · have hk2 : ∀ p ∈ b2, (mf_types_dim p.1).isSome := by
      intro p hp
      have h1 : (lookupB p.1 b2).isSome := lookupB_isSome_iff.mpr ⟨p.2, hp⟩
      rw [← h p.1] at h1
      obtain ⟨tbl, htbl⟩ := Option.isSome_iff_exists.mp h1
      exact hk1 (p.1, tbl) (lookupB_mem htbl)
    have hds1 := dimsOf_known hk1
    have hds2 := dimsOf_known hk2
    have hmem : ∀ d, d ∈ presentDims b1 ↔ d ∈ presentDims b2 := by
      intro d
      rw [mem_presentDims, mem_presentDims]
      simp only [h]
    have hmax := max?_eq_of_mem_iff hmem
    cases hm : (presentDims b1).max? with
    | none =>
      have hm2 : (presentDims b2).max? = none := by rw [← hmax]; exact hm
      simp [to_mc_arrays, selectLev, hds1, hds2, hm, hm2, bind, Except.bind]
    | some m =>
      have hm2 : (presentDims b2).max? = some m := by rw [← hmax]; exact hm
      simp [to_mc_arrays, selectLev, hds1, hds2, hm, hm2, bind, Except.bind,
        mc_fold_congr h m]
  · rw [canonicalBlocks_eq_selBlocks]
    simpa using mc_foldl_conn_structure b1 lev type_order ([], [])

/-- Witness for C3: the same two blocks inserted in the two possible orders
produce the same pyvista arrays (TRI3 first, per CanonicalOrder) and the
same `to_mc` output under the defaulted level. -/
theorem flattened_outputs_content_determined_witness :
    pv_fold [("QUAD4", [[0,1,2,3]]), ("TRI3", [[0,1,2],[1,2,3]])]
      = pv_fold [("TRI3", [[0,1,2],[1,2,3]]), ("QUAD4", [[0,1,2,3]])]
    ∧ pv_fold [("QUAD4", [[0,1,2,3]]), ("TRI3", [[0,1,2],[1,2,3]])]
      = ([3,0,1,2,3,1,2,3,4,0,1,2,3], [5,5,9])
    ∧ to_mc_arrays [("QUAD4", [[0,1,2,3]]), ("TRI3", [[0,1,2],[1,2,3]])] none
      = to_mc_arrays [("TRI3", [[0,1,2],[1,2,3]]), ("QUAD4", [[0,1,2,3]])] none := by
  have h : ∀ et, lookupB et [("QUAD4", [[0,1,2,3]]), ("TRI3", [[0,1,2],[1,2,3]])]
      = lookupB et [("TRI3", [[0,1,2],[1,2,3]]), ("QUAD4", [[0,1,2,3]])] := by
    intro et
    by_cases h1 : "QUAD4" = et
    · subst h1; rfl
    · by_cases h2 : "TRI3" = et
      · subst h2; rfl
      · simp [lookupB, h1, h2]
  exact ⟨(flattened_outputs_content_determined _ _ h).1, rfl,
    (flattened_outputs_content_determined _ _ h).2.2.1 (by decide)⟩

/-- C7: `to_mc` with level `lev` uses exactly the blocks whose type has
dimension `lev` — its output on any mapping equals its output on the mapping
restricted to those blocks, all others being dropped silently; concretely,
for `{TRI3: 2 rows, HEX8: 1 row}` at level 2 only the TRI3 elements appear. -/
theorem dimension_filter_exact (b : Blocks) (lev : Nat) :
    to_mc_arrays b (some lev)
      = to_mc_arrays (b.filter (fun p => decide (mf_types_dim p.1 = some lev)))
          (some lev)
    ∧ to_mc_arrays [("TRI3", [[0,1,2],[1,2,3]]), ("HEX8", [[0,1,2,3,4,5,6,7]])]
        (some 2) = .ok ([3,0,1,2,3,1,2,3], [0,4]) := by
  constructor
  · simp only [to_mc_arrays, selectLev, pure, Except.pure, bind, Except.bind]
    unfold mc_fold
    exact congrArg Except.ok
      (List.foldl_ext _ _ _ (fun acc et _ => mc_step_dim_filter b lev et acc))
  · rfl

/-- C9 counterexample: a 1×4 coordinate matrix (width greater than the
target width 3) is passed through unchanged by the coordinate handling of
`to_pyvista`: nothing fails and nothing is narrowed. -/
theorem pad_wide_matrix_unchanged :
    pad_coords [[1, 2, 3, 4]] = [[1, 2, 3, 4]]
    ∧ (pad_coords [[1, 2, 3, 4]]).map List.length = [4] :=
  ⟨rfl, rfl⟩

/-- C9 amended: widths 1 and 2 are padded with zero columns to width 3 with
the original columns unchanged; every other width — including widths greater
than 3 — is passed through unchanged, and no failure path exists. -/
theorem pad_coords_behavior (coords : List (List ℚ)) :
    (ncolsQ coords = 1 → pad_coords coords = coords.map (fun row => row ++ [0, 0]))
    ∧ (ncolsQ coords = 2 → pad_coords coords = coords.map (fun row => row ++ [0]))
    ∧ (ncolsQ coords ≠ 1 → ncolsQ coords ≠ 2 → pad_coords coords = coords)
    ∧ ((∀ row ∈ coords, row.length = ncolsQ coords) → 1 ≤ ncolsQ coords →
        ncolsQ coords ≤ 3 → ∀ row ∈ pad_coords coords, row.length = 3) := by
  have c1 : ncolsQ coords = 1 →
      pad_coords coords = coords.map (fun row => row ++ [0, 0]) := by
    intro h; simp [pad_coords, h]
  have c2 : ncolsQ coords = 2 →
      pad_coords coords = coords.map (fun row => row ++ [0]) := by
    intro h; simp [pad_coords, h]
  have c3 : ncolsQ coords ≠ 1 → ncolsQ coords ≠ 2 → pad_coords coords = coords := by
    intro h1 h2; simp [pad_coords, h1, h2]
  refine ⟨c1, c2, c3, fun hrect hlo hhi row hrow => ?_⟩
  have hd : ncolsQ coords = 1 ∨ ncolsQ coords = 2 ∨ ncolsQ coords = 3 := by omega
  rcases hd with h | h | h
  · rw [c1 h] at hrow
    obtain ⟨r, hr, rfl⟩ := List.mem_map.mp hrow
    have hlen := hrect r hr
    simp [List.length_append, hlen, h]
  · rw [c2 h] at hrow
    obtain ⟨r, hr, rfl⟩ := List.mem_map.mp hrow
    have hlen := hrect r hr
    simp [List.length_append, hlen, h]
  · rw [c3 (by omega) (by omega)] at hrow
    have hlen := hrect row hrow
    omega

/-- Witness for C9: the 5×1 matrix of the spec's example is padded to the
5×3 matrix with the first column unchanged and two zero columns appended. -/
theorem pad_coords_behavior_witness :
    pad_coords [[1], [2], [3], [4], [5]]
      = [[1,0,0], [2,0,0], [3,0,0], [4,0,0], [5,0,0]] := by
  rw [(pad_coords_behavior [[1], [2], [3], [4], [5]]).1 rfl]
  rfl

/-- C6: an explicitly requested level is used unchanged; with no requested
level, the selected level is the maximum dimension over the types present
(it is one of the present dimensions and bounds them all); and the empty
blocks mapping with no requested level fails (`max()` of an empty
generator). -/
theorem level_selection :
    (∀ (b : Blocks) (l : Nat), selectLev b (some l) = .ok l)
    ∧ (∀ b : Blocks, b ≠ [] → (∀ p ∈ b, (mf_types_dim p.1).isSome) →
        ∃ m, selectLev b none = .ok m ∧ m ∈ presentDims b
          ∧ ∀ d ∈ presentDims b, d ≤ m)
    ∧ selectLev [] none = .error .emptyMesh := by
  refine ⟨fun b l => rfl, fun b hne hk => ?_, rfl⟩
  have hds := dimsOf_known hk
  have hne' : presentDims b ≠ [] := by
    cases b with
    | nil => exact absurd rfl hne
    | cons p rest =>
      have hp := hk p (List.mem_cons_self _ _)
      cases hdim : mf_types_dim p.1 with
      | none => rw [hdim] at hp; simp at hp
      | some d => simp [presentDims, List.filterMap_cons, hdim]
  obtain ⟨m, hm⟩ : ∃ m, (presentDims b).max? = some m := by
    cases hmax : (presentDims b).max? with
    | some m => exact ⟨m, rfl⟩
    | none => exact absurd (List.max?_eq_none_iff.mp hmax) hne'
  refine ⟨m, ?_, ?_, ?_⟩
  · simp [selectLev, hds, hm, bind, Except.bind]
  · exact List.max?_mem (fun a b => max_choice a b) hm
  · exact (List.max?_le_iff (fun _ _ _ => max_le_iff) hm).mp le_rfl

/-- Witness for C6: blocks of dimensions `{0, 2, 3}` select level 3 by
default, and an explicit level 7 is used unchanged. -/
theorem level_selection_witness :
    selectLev [("VERTEX", [[0]]), ("TRI3", [[0,1,2]]),
               ("HEX8", [[0,1,2,3,4,5,6,7]])] none = .ok 3
    ∧ selectLev [("TRI3", [[0,1,2]])] (some 7) = .ok 7 := by
  constructor
  · obtain ⟨m, hm, hmem, hle⟩ :=
      level_selection.2.1
        [("VERTEX", [[0]]), ("TRI3", [[0,1,2]]), ("HEX8", [[0,1,2,3,4,5,6,7]])]
        (by decide) (by decide)
    have hpd : presentDims
        [("VERTEX", [[0]]), ("TRI3", [[0,1,2]]), ("HEX8", [[0,1,2,3,4,5,6,7]])]
        = [0, 2, 3] := rfl
    rw [hpd] at hmem hle
    have h3 := hle 3 (by decide)
    have hm3 : m = 3 := by
      simp [List.mem_cons] at hmem
      omega
    rw [hm3] at hm
    exact hm
  · exact level_selection.1 _ 7

/-- C4 counterexample: a blocks mapping holding the unknown tag `"FOO"`
alongside a TRI3 block is converted by `to_pyvista`, and by `to_mc` with an
explicit level, into an output containing exactly the known-type blocks; no
error of any kind is raised, contradicting the claim that every conversion
raises `UnknownType` before any output. -/
theorem unknown_tag_silent_output :
    pv_fold [("FOO", [[0]]), ("TRI3", [[0,1,2]])] = ([3,0,1,2], [5])
    ∧ to_mc_arrays [("FOO", [[0]]), ("TRI3", [[0,1,2]])] (some 2)
      = .ok ([3,0,1,2], [0]) :=
  ⟨rfl, rfl⟩

/-- C4 amended: `to_pyvista` and `to_mc` with an explicit level never raise
on unknown tags — they silently skip every block whose tag is outside the
catalogue, producing the output of the mapping restricted to known tags;
only `to_meshio` and the default-level computation of `to_mc` stop with a
`KeyError` naming an out-of-catalogue tag. -/
theorem unknown_tag_handling (b : Blocks) (lev : Nat) :
    pv_fold b = pv_fold (b.filter (fun p => decide (p.1 ∈ type_order)))
    ∧ to_mc_arrays b (some lev)
      = to_mc_arrays (b.filter (fun p => decide (p.1 ∈ type_order))) (some lev)
    ∧ (∀ t tbl, (t, tbl) ∈ b → t ∉ type_order →
        (∃ k, to_meshio_cells b = .error (.keyError k) ∧ k ∉ type_order)
        ∧ (∃ k, to_mc_arrays b none = .error (.keyError k) ∧ k ∉ type_order)) := by
  have hlook : ∀ et ∈ type_order,
      lookupB et b = lookupB et (b.filter (fun p => decide (p.1 ∈ type_order))) := by
    intro et hmem
    rw [lookupB_filter (fun s => decide (s ∈ type_order)) b et]
    simp [hmem]
  refine ⟨?_, ?_, fun t tbl hmem hout => ?_⟩
  · unfold pv_fold
    exact List.foldl_ext _ _ _ (fun acc et hmem => pv_step_congr et (hlook et hmem) acc)
  · simp only [to_mc_arrays, selectLev, pure, Except.pure, bind, Except.bind]
    unfold mc_fold
    exact congrArg Except.ok
      (List.foldl_ext _ _ _ (fun acc et hmem => mc_step_congr lev et (hlook et hmem) acc))
  · constructor
    · obtain ⟨k, hk, hkn⟩ :=
        meshio_unknown hmem (meshio_none_of_not_mem hout)
      exact ⟨k, hk, not_mem_of_meshio_none hkn⟩
    · obtain ⟨k, hk, hkn⟩ := dimsOf_unknown hmem (dim_none_of_not_mem hout)
      refine ⟨k, ?_, not_mem_of_dim_none hkn⟩
      simp [to_mc_arrays, selectLev, hk, bind, Except.bind]

theorem size_prefixed_cons (p : Nat) (row : List Nat) (tbl : Table) :
    size_prefixed p (row :: tbl) = (p :: row) ++ size_prefixed p tbl := by
  simp [size_prefixed]

theorem decodeStream_cons (s : Nat) (rest : List Nat) :
    decodeStream (s :: rest) = rest.take s :: decodeStream (rest.drop s) := by
  simp [decodeStream]

theorem decode_prefixed (tbl : Table) (k : Nat) (rest : List Nat)
    (h : ∀ row ∈ tbl, row.length = k) :
    decodeStream (size_prefixed k tbl ++ rest) = tbl ++ decodeStream rest := by
  induction tbl with
  | nil => simp [size_prefixed]
  | cons row tbl' ih =>
    have hr := h row (List.mem_cons_self _ _)
    have ih' := ih (fun r hrm => h r (List.mem_cons_of_mem _ hrm))
    rw [size_prefixed_cons, List.append_assoc, List.cons_append,
      decodeStream_cons, ← hr, List.take_left, List.drop_left, hr, ih',
      List.cons_append]

theorem groupConsec_prepend (c : Nat) (tbl : Table) (ts : List Nat)
    (rs : List (List Nat)) (hne : tbl ≠ [])
    (hhead : ∀ q, (groupConsec ts rs).head? = some q → q.1 ≠ c) :
    groupConsec (List.replicate tbl.length c ++ ts) (tbl ++ rs)
      = (c, tbl) :: groupConsec ts rs := by
  induction tbl with
  | nil => exact absurd rfl hne
  | cons row tbl' ih =>
    cases tbl' with
    | nil =>
      cases hg : groupConsec ts rs with
      | nil => simp [groupConsec, hg]
      | cons q rest2 =>
        have hqc := hhead q (by rw [hg]; rfl)
        have hcq : ¬ (c = q.1) := fun hcq => hqc hcq.symm
        simp [groupConsec, hg, hcq]
    | cons row2 tbl'' =>
      have ih' := ih (by simp)
      rw [show List.replicate (row :: row2 :: tbl'').length c
          = c :: List.replicate (row2 :: tbl'').length c from rfl,
        List.cons_append, List.cons_append, groupConsec]
      rw [ih']
      simp

theorem decode_group_concat (L : List (Nat × Table))
    (hne : ∀ p ∈ L, p.2 ≠ [])
    (hrect : ∀ p ∈ L, Rect p.2)
    (hchain : L.Chain' (fun p q => p.1 ≠ q.1)) :
    groupConsec (L.flatMap (fun p => List.replicate p.2.length p.1))
        (decodeStream (L.flatMap (fun p => size_prefixed (ncols p.2) p.2)))
      = L := by
  induction L with
  | nil => rfl
  | cons p L' ih =>
    have hpne := hne p (List.mem_cons_self _ _)
    have hprect := hrect p (List.mem_cons_self _ _)
    have hch := List.chain'_cons'.mp hchain
    have ih' := ih (fun q hq => hne q (List.mem_cons_of_mem _ hq))
      (fun q hq => hrect q (List.mem_cons_of_mem _ hq)) hch.2
    rw [List.flatMap_cons, List.flatMap_cons,
      decode_prefixed p.2 (ncols p.2) _ hprect,
      groupConsec_prepend p.1 p.2 _ _ hpne ?_, ih']
    intro q hq
    rw [ih'] at hq
    exact (hch.1 q hq).symm

theorem selBlocks_keys_sublist (b : Blocks) (l : List String) :
    ((selBlocks b l).map Prod.fst).Sublist l := by
  induction l with
  | nil => simp [selBlocks]
  | cons et rest ih =>
    cases h : lookupB et b with
    | none =>
      simp only [selBlocks, List.filterMap_cons, h, Option.map_none']
      exact ih.cons et
    | some tbl =>
      simp only [selBlocks, List.filterMap_cons, h, Option.map_some',
        List.map_cons]
      exact ih.cons₂ et

theorem canonical_codes_nodup (b : Blocks) :
    ((canonicalBlocks b).map (fun p => (mf_types_to_pv p.1).getD 0)).Nodup := by
  have hsub := (selBlocks_keys_sublist b type_order).map
    (fun t => (mf_types_to_pv t).getD 0)
  have hnd : (type_order.map (fun t => (mf_types_to_pv t).getD 0)).Nodup := by
    decide
  have := hnd.sublist hsub
  rw [canonicalBlocks_eq_selBlocks]
  simpa [List.map_map, Function.comp] using this

/-- C8: re-chunking the size-prefixed pyvista stream with its inline size
prefixes and grouping consecutive elements of the same type id reproduces
the original per-type block tables exactly, in CanonicalOrder (each table
keyed by its type's pyvista code), for every mesh whose present blocks are
rectangular and non-empty. -/
theorem size_prefixed_roundtrip (b : Blocks)
    (hne : ∀ p ∈ canonicalBlocks b, p.2 ≠ [])
    (hrect : ∀ p ∈ canonicalBlocks b, Rect p.2) :
    groupConsec (pv_fold b).2 (decodeStream (pv_fold b).1)
      = (canonicalBlocks b).map (fun p => ((mf_types_to_pv p.1).getD 0, p.2)) := by
  rw [pv_fold_structure b]
  have hmap1 : ((canonicalBlocks b).map
        (fun p => ((mf_types_to_pv p.1).getD 0, p.2))).flatMap
        (fun q => List.replicate q.2.length q.1)
      = (canonicalBlocks b).flatMap
          (fun p => List.replicate p.2.length ((mf_types_to_pv p.1).getD 0)) := by
    rw [List.flatMap_map]
  have hmap2 : ((canonicalBlocks b).map
        (fun p => ((mf_types_to_pv p.1).getD 0, p.2))).flatMap
        (fun q => size_prefixed (ncols q.2) q.2)
      = (canonicalBlocks b).flatMap (fun p => size_prefixed (ncols p.2) p.2) := by
    rw [List.flatMap_map]
  rw [← hmap1, ← hmap2]
  apply decode_group_concat
  · intro q hq
    obtain ⟨p, hp, rfl⟩ := List.mem_map.mp hq
    exact hne p hp
  · intro q hq
    obtain ⟨p, hp, rfl⟩ := List.mem_map.mp hq
    exact hrect p hp
  · apply List.Pairwise.chain'
    have hnd : List.Pairwise (fun x1 x2 => x1 ≠ x2)
        ((canonicalBlocks b).map (fun p => (mf_types_to_pv p.1).getD 0)) :=
      canonical_codes_nodup b
    rw [List.pairwise_map] at hnd
    rw [List.pairwise_map]
    simpa using hnd

/-- Witness for C8: a mesh given with its blocks out of order round-trips to
its tables in CanonicalOrder, TRI3 (code 5) before QUAD4 (code 9). -/
theorem size_prefixed_roundtrip_witness :
    groupConsec (pv_fold [("QUAD4", [[0,1,2,3]]), ("TRI3", [[0,1,2],[1,2,3]])]).2
        (decodeStream
          (pv_fold [("QUAD4", [[0,1,2,3]]), ("TRI3", [[0,1,2],[1,2,3]])]).1)
      = [(5, [[0,1,2], [1,2,3]]), (9, [[0,1,2,3]])] := by
  rw [size_prefixed_roundtrip [("QUAD4", [[0,1,2,3]]), ("TRI3", [[0,1,2],[1,2,3]])]
    (by decide) (by decide)]
  rfl

/-- Witness for C4 (amended): with blocks `{FOO, TRI3}`, the pyvista output
equals that of `{TRI3}` alone, and `to_meshio` stops with a `KeyError` on a
tag outside the catalogue. -/
theorem unknown_tag_handling_witness :
    pv_fold [("FOO", [[0]]), ("TRI3", [[0,1,2]])] = pv_fold [("TRI3", [[0,1,2]])]
    ∧ ∃ k, to_meshio_cells [("FOO", [[0]]), ("TRI3", [[0,1,2]])]
        = .error (.keyError k) ∧ k ∉ type_order := by
  have h := unknown_tag_handling [("FOO", [[0]]), ("TRI3", [[0,1,2]])] 2
  constructor
  · have h1 := h.1
    have hfil : List.filter (fun p => decide (p.1 ∈ type_order))
        [("FOO", [[0]]), ("TRI3", [[0,1,2]])] = [("TRI3", [[0,1,2]])] := by decide
    rw [hfil] at h1
    exact h1
  · exact (h.2.2 "FOO" [[0]] (List.mem_cons_self _ _) (by decide)).1

end Mefikit
